import Mathlib

/-!
Verification of the hessian_rs Hessian 2.0 codec core, a shallow embedding of
src/ser.rs, src/de.rs, src/value.rs and src/constant.rs.

Modelling conventions:
* Machine bytes are Nat values below 256.  Multi-byte signed integers use
  explicit Int.emod / Int.fdiv arithmetic: Int.fdiv by a power of two is the
  arithmetic shift, Int.emod 256 the two's-complement low byte.
* Rust release-mode integer overflow wraps (modelled with emod / wrapping
  helpers); slice range violations always panic, modelled as Option none.
* f64 is modelled by F64: NaN, a signed infinity, or an exact rational.
  Every finite binary64 value is an exact rational, so decoding bit patterns
  is exact.  Rational arithmetic is exact wherever the f64 operations the
  code performs are exact, which holds at every concrete input evaluated in
  the theorems below; the one inexact spot (the 0.001 scaling of the 0x5f
  double form, and the i64 to f64 cast) is modelled by the exact rational
  operation and is never evaluated by a theorem.
* Recursive functions that a theorem must evaluate inside the kernel are
  written with an explicit fuel argument (structural recursion on fuel).
  Fuel is always chosen large enough that exhaustion is unreachable, so the
  fuelled function agrees with the Rust recursion.
-/

namespace Hessian

/-- The Rust cast of a (possibly negative) integer to u8: two's-complement
low byte. -/
def u8 (v : ℤ) : Nat := (Int.emod v 256).toNat

/-- Arithmetic shift right by k bits on a signed integer (Rust >> on i32 or
i64), which is floor division by 2 ^ k. -/
def shr (v : ℤ) (k : Nat) : ℤ := Int.fdiv v (2 ^ k)

/-- The byte (v >> k) & 0xff emitted by the big-endian writers. -/
def byteAt (v : ℤ) (k : Nat) : Nat := u8 (shr v k)

/-- u8 wrapping subtraction b.wrapping_sub k (arguments below 256). -/
def wrapSub (b k : Nat) : Nat := (b + 256 - k) % 256

/-- Reinterpret two big-endian bytes as a signed 16-bit integer
(i16 from_be_bytes). -/
def i16ofBE (b1 b0 : Nat) : ℤ :=
  let n : ℤ := (b1 : ℤ) * 256 + b0
  if n < 32768 then n else n - 65536

/-- Reinterpret four big-endian bytes as a signed 32-bit integer
(i32 from_be_bytes). -/
def i32ofBE (b3 b2 b1 b0 : Nat) : ℤ :=
  let n : ℤ := (b3 : ℤ) * 16777216 + (b2 : ℤ) * 65536 + (b1 : ℤ) * 256 + b0
  if n < 2147483648 then n else n - 4294967296

/-- Reinterpret a big-endian byte list as a signed 64-bit integer
(i64 from_be_bytes). -/
def i64ofBE (bs : List Nat) : ℤ :=
  let n : ℤ := (bs.foldl (fun acc b => acc * 256 + b) 0 : ℤ)
  if n < 9223372036854775808 then n else n - 18446744073709551616

/-- The Rust cast of a signed value to usize (wrapping into 64 bits). -/
def usizeOf (i : ℤ) : Nat := (Int.emod i 18446744073709551616).toNat

/-- The Rust cast of a usize to i32 (truncating two's-complement). -/
def i32ofUsize (n : Nat) : ℤ :=
  let m := n % 4294967296
  if m < 2147483648 then (m : ℤ) else (m : ℤ) - 4294967296

/-- The Rust cast of a u32 to i32 (reinterpret). -/
def i32ofU32 (r : Nat) : ℤ :=
  if r < 2147483648 then (r : ℤ) else (r : ℤ) - 4294967296

/-- The Rust cast of an i32 value to u32 (reinterpret). -/
def u32of (i : ℤ) : Nat := (Int.emod i 4294967296).toNat

/-- Big-endian bytes of an i64 (to_be_bytes). -/
def be8 (v : ℤ) : List Nat :=
  [byteAt v 56, byteAt v 48, byteAt v 40, byteAt v 32,
   byteAt v 24, byteAt v 16, byteAt v 8, u8 v]

/-- Big-endian bytes of an i32 (write_i32). -/
def be4 (v : ℤ) : List Nat := [byteAt v 24, byteAt v 16, byteAt v 8, u8 v]

/-- Big-endian bytes of a u16 value (write_u16 of n, n below 65536). -/
def be2 (n : Nat) : List Nat := [n / 256 % 256, n % 256]

/-! ### The f64 model -/

/-- Model of an f64: NaN, a signed infinity, or an exact rational value.
Finite binary64 values are exactly representable as rationals; the model
allows all rationals and collapses positive and negative zero. -/
inductive F64 where
  | nan : F64
  | inf (neg : Bool) : F64
  | num (q : ℚ) : F64
deriving Repr, DecidableEq

/-- Rational multiplication in kernel-computable form (the standard Rat.mul
is marked irreducible; Rat.mul_def below shows this is the same
operation). -/
def qmul (a b : ℚ) : ℚ :=
  Rat.normalize (a.num * b.num) (a.den * b.den) (Nat.mul_ne_zero a.den_nz b.den_nz)

/-- Rational subtraction in kernel-computable form (equal to Rat.sub by
Rat.sub_def). -/
def qsub (a b : ℚ) : ℚ :=
  Rat.normalize (a.num * b.den - b.num * a.den) (a.den * b.den)
    (Nat.mul_ne_zero a.den_nz b.den_nz)

/-- Rational negation in kernel-computable form. -/
def qneg (a : ℚ) : ℚ := qsub 0 a

/-- 2 ^ e for an integer exponent, as an exact rational. -/
def pow2 (e : ℤ) : ℚ :=
  if 0 ≤ e then ((2 ^ e.toNat : ℕ) : ℚ) else Rat.divInt 1 (2 ^ (-e).toNat)

/-- f64::EPSILON, which is exactly 2 ^ (-52). -/
def f64EPSILON : ℚ := Rat.divInt 1 4503599627370496

/-- Floor of a rational (Rat.floor is kernel-computable). -/
def floorQ (q : ℚ) : ℤ := Rat.floor q

/-- f64::trunc, rounding toward zero (exact on f64). -/
def truncQ (q : ℚ) : ℤ := if 0 ≤ q then Rat.floor q else Rat.ceil q

/-- Absolute value of a rational (f64::abs, exact). -/
def absQ (q : ℚ) : ℚ := if q < 0 then qneg q else q

/-- Saturation of an integer into the i32 range, used by the Rust float to
i32 cast. -/
def satI32 (n : ℤ) : ℤ :=
  if n < -2147483648 then -2147483648
  else if 2147483647 < n then 2147483647 else n

/-- Round a rational to the nearest integer, ties to even (IEEE-754 default
rounding). -/
def roundHalfEven (r : ℚ) : ℤ :=
  let f : ℤ := Rat.floor r
  let frac : ℚ := qsub r (f : ℚ)
  if frac < Rat.divInt 1 2 then f
  else if Rat.divInt 1 2 < frac then f + 1
  else if Int.emod f 2 = 0 then f else f + 1

/-- Big-endian IEEE-754 binary64 bytes of a rational (round to nearest,
ties to even), as written by write_f64.  Used only for the 8-byte double
form; no theorem below inspects its output. -/
def f64be (q : ℚ) : List Nat :=
  if q = 0 then [0, 0, 0, 0, 0, 0, 0, 0]
  else
    let sgn : Nat := if q < 0 then 9223372036854775808 else 0
    let m : ℚ := absQ q
    let e0 : ℤ := (Nat.log2 m.num.natAbs : ℤ) - (Nat.log2 m.den : ℤ)
    let e : ℤ :=
      if pow2 (e0 + 1) ≤ m then e0 + 1
      else if m < pow2 e0 then e0 - 1 else e0
    let eEff : ℤ := if e < -1022 then -1022 else e
    let n : ℤ := roundHalfEven (qmul m (pow2 (52 - eEff)))
    let n2 : ℤ := if n = 9007199254740992 then 4503599627370496 else n
    let e2 : ℤ := if n = 9007199254740992 then eEff + 1 else eEff
    if 1024 ≤ e2 then
      -- overflow to infinity
      (fun bits => bits) (if q < 0 then [255, 240, 0, 0, 0, 0, 0, 0] else [127, 240, 0, 0, 0, 0, 0, 0])
    else
      let bits : Nat :=
        if n2 < 4503599627370496 then sgn + n2.toNat
        else sgn + (e2 + 1023).toNat * 4503599627370496 + (n2 - 4503599627370496).toNat
      [bits / 72057594037927936 % 256, bits / 281474976710656 % 256,
       bits / 1099511627776 % 256, bits / 4294967296 % 256,
       bits / 16777216 % 256, bits / 65536 % 256, bits / 256 % 256, bits % 256]

/-- Decode eight big-endian bytes as an f64 (read_f64).  Exact: every finite
binary64 value is a rational. -/
def f64frombits (bs : List Nat) : F64 :=
  let u : Nat := bs.foldl (fun acc b => acc * 256 + b) 0
  let sign : Nat := u / 9223372036854775808
  let expF : Nat := u / 4503599627370496 % 2048
  let mant : Nat := u % 4503599627370496
  if expF = 2047 then
    if mant = 0 then .inf (sign = 1) else .nan
  else
    let mag : ℚ :=
      if expF = 0 then qmul (mant : ℚ) (pow2 (-1074))
      else qmul ((4503599627370496 + mant : ℕ) : ℚ) (pow2 ((expF : ℤ) - 1075))
    .num (if sign = 1 then qneg mag else mag)

/-! ### The Value data model (value.rs)

Value mirrors the Rust enum.  Rust String values are stored as their UTF-8
byte lists (the decoder can produce byte lists that are not valid UTF-8, via
String::from_utf8_unchecked, so no validity constraint is imposed).  The
List and Map payloads merge the Typed and Untyped variants of the Rust List
and Map enums into an Option type name plus the payload; a HashMap is
modelled as its entry list. -/
inductive Value where
  | null : Value
  | bool (b : Bool) : Value
  | int (i : ℤ) : Value
  | long (l : ℤ) : Value
  | double (d : F64) : Value
  | date (ms : ℤ) : Value
  | bytes (bs : List Nat) : Value
  | str (bs : List Nat) : Value
  | ref (r : Nat) : Value
  | list (tp : Option (List Nat)) (es : List Value) : Value
  | map (tp : Option (List Nat)) (entries : List (Value × Value)) : Value
deriving Repr

/-- A class definition: a name and ordered field names (value.rs
Definition). -/
structure Definition where
  name : List Nat
  fields : List (List Nat)
deriving Repr, DecidableEq

mutual

/-- Nesting depth of a Value, used to size fuel for the fuelled comparison
functions. -/
def vdepth : Value → Nat
  | .list _ es => 1 + vdepthL es
  | .map _ en => 1 + vdepthE en
  | _ => 1

/-- Maximal depth of a list of values. -/
def vdepthL : List Value → Nat
  | [] => 0
  | v :: vs => max (vdepth v) (vdepthL vs)

/-- Maximal depth of an entry list. -/
def vdepthE : List (Value × Value) → Nat
  | [] => 0
  | kv :: rest => max (max (vdepth kv.1) (vdepth kv.2)) (vdepthE rest)

end

/-! ### Accessors and predicates of value.rs -/

/-- Value::as_int. -/
def as_int : Value → Option ℤ
  | .int i => some i
  | _ => none

/-- Value::is_int. -/
def is_int (v : Value) : Bool := (as_int v).isSome

/-- Value::as_list, returning the List payload (type name and elements). -/
def as_list : Value → Option (Option (List Nat) × List Value)
  | .list tp es => some (tp, es)
  | _ => none

/-- Value::is_list.  Faithful to the source, which tests as_int, not
as_list. -/
def is_list (v : Value) : Bool := (as_int v).isSome

/-- Value::as_map. -/
def as_map : Value → Option (Option (List Nat) × List (Value × Value))
  | .map tp en => some (tp, en)
  | _ => none

/-- Value::is_map. -/
def is_map (v : Value) : Bool := (as_map v).isSome

/-! ### The Ord implementation of value.rs

The comparison recurses through containers; the Map arm sorts both entry
lists by key with the comparison itself and then compares the sorted pair
vectors lexicographically.  That recursion pattern (sorting with the
function being defined) is encoded with a fuel argument: cmpF (n+1) performs
one layer and hands cmpF n to every inner comparison.  Every inner
comparison is between strict subterms, so any fuel at least the combined
nesting depth computes the Rust comparison; cmp supplies such a fuel. -/

/-- Comparison of two integers (i32 / i64 / u32 cmp). -/
def cmpZ (a b : ℤ) : Ordering :=
  if a < b then .lt else if a = b then .eq else .gt

/-- Comparison of two naturals (u8 / usize cmp). -/
def cmpN (a b : Nat) : Ordering :=
  if a < b then .lt else if a = b then .eq else .gt

/-- Comparison of two rationals, mirroring f64 partial_cmp on finite
values. -/
def cmpQ (p q : ℚ) : Ordering :=
  if p < q then .lt else if p = q then .eq else .gt

/-- float_ord of value.rs: f.partial_cmp(&g) with None mapped to Less.
Any comparison involving NaN is therefore Less. -/
def float_ord (f g : F64) : Ordering :=
  match f, g with
  | .num p, .num q => cmpQ p q
  | .num _, .inf s => if s then .gt else .lt
  | .inf s, .num _ => if s then .lt else .gt
  | .inf s1, .inf s2 =>
      match s1, s2 with
      | true, false => .lt
      | false, true => .gt
      | _, _ => .eq
  | _, _ => .lt

/-- The Rust cast bool as i64 (and bool as i32). -/
def boolToZ (b : Bool) : ℤ := if b then 1 else 0

/-- The Rust cast of an integer to f64, modelled exactly (the i64 to f64
cast rounds to nearest in Rust for magnitudes above 2^53; no theorem below
depends on that rounding). -/
def intToF64 (i : ℤ) : F64 := .num (i : ℚ)

/-- Lexicographic comparison of byte lists (Vec u8 and String Ord). -/
def cmpBytesL : List Nat → List Nat → Ordering
  | [], [] => .eq
  | [], _ :: _ => .lt
  | _ :: _, [] => .gt
  | a :: as1, b :: bs1 => (cmpN a b).then (cmpBytesL as1 bs1)

/-- Lexicographic comparison of value vectors with a given element
comparison. -/
def cmpVec (r : Value → Value → Ordering) : List Value → List Value → Ordering
  | [], [] => .eq
  | [], _ :: _ => .lt
  | _ :: _, [] => .gt
  | a :: as1, b :: bs1 => (r a b).then (cmpVec r as1 bs1)

/-- Comparison of key-value pairs (tuple Ord: key first, then value). -/
def cmpPair (r : Value → Value → Ordering) (p q : Value × Value) : Ordering :=
  (r p.1 q.1).then (r p.2 q.2)

/-- Lexicographic comparison of entry vectors. -/
def cmpPairs (r : Value → Value → Ordering) :
    List (Value × Value) → List (Value × Value) → Ordering
  | [], [] => .eq
  | [], _ :: _ => .lt
  | _ :: _, [] => .gt
  | a :: as1, b :: bs1 => (cmpPair r a b).then (cmpPairs r as1 bs1)

/-- Stable insertion by key: the new element goes before the first existing
element whose key is strictly greater. -/
def insertByKey (r : Value → Value → Ordering) (x : Value × Value) :
    List (Value × Value) → List (Value × Value)
  | [] => [x]
  | y :: ys => if r x.1 y.1 = .lt then x :: y :: ys else y :: insertByKey r x ys

/-- Stable sort by key (sort_by on the collected entries with the key
comparison), processing entries left to right. -/
def sortByKey (r : Value → Value → Ordering) (l : List (Value × Value)) :
    List (Value × Value) :=
  l.foldl (fun acc x => insertByKey r x acc) []

/-- One layer of the Ord implementation of value.rs, with r the comparison
used for all nested values.  Faithful to the source match arms; note the
Bool arm has no Bool-vs-Bool case, so two Bools fall through to Less. -/
def cmpBody (r : Value → Value → Ordering) (a b : Value) : Ordering :=
  match a, b with
  | .null, other =>
      match other with
      | .null => .eq
      | _ => .lt
  | .bool bb, other =>
      match other with
      | .null => .gt
      | .int i => cmpZ (boolToZ bb) i
      | .long l => cmpZ (boolToZ bb) l
      | .double d => float_ord (intToF64 (boolToZ bb)) d
      | .date d => cmpZ (boolToZ bb) d
      | _ => .lt
  | .int i, other =>
      match other with
      | .null => .gt
      | .bool b2 => cmpZ i (boolToZ b2)
      | .int i2 => cmpZ i i2
      | .long l => cmpZ i l
      | .double d => float_ord (intToF64 i) d
      | .date d => cmpZ i d
      | _ => .lt
  | .long l, other =>
      match other with
      | .null => .gt
      | .bool b2 => cmpZ l (boolToZ b2)
      | .int i2 => cmpZ l i2
      | .long l2 => cmpZ l l2
      | .double d => float_ord (intToF64 l) d
      | .date d => cmpZ l d
      | _ => .lt
  | .double d, other =>
      match other with
      | .null => .gt
      | .bool b2 => float_ord d (intToF64 (boolToZ b2))
      | .int i => float_ord d (intToF64 i)
      | .long l => float_ord d (intToF64 l)
      | .double d2 => float_ord d d2
      | .date d2 => float_ord d (intToF64 d2)
      | _ => .lt
  | .date d, other =>
      match other with
      | .null => .gt
      | .bool b2 => cmpZ d (boolToZ b2)
      | .int i2 => cmpZ d i2
      | .long l2 => cmpZ d l2
      | .double d2 => float_ord (intToF64 d) d2
      | .date d2 => cmpZ d d2
      | _ => .lt
  | .bytes bs, other =>
      match other with
      | .str _ => .lt
      | .list _ _ => .lt
      | .ref _ => .lt
      | .map _ _ => .lt
      | .bytes bs2 => cmpBytesL bs bs2
      | _ => .gt
  | .str s, other =>
      match other with
      | .ref _ => .lt
      | .list _ _ => .lt
      | .map _ _ => .lt
      | .str s2 => cmpBytesL s s2
      | _ => .gt
  | .ref i, other =>
      match other with
      | .list _ _ => .lt
      | .map _ _ => .lt
      | .ref i2 => cmpN i i2
      | _ => .gt
  | .list tp1 es1, other =>
      match other with
      | .map _ _ => .lt
      | .list tp2 es2 =>
          -- derived Ord on the List enum: Typed before Untyped, fields
          -- lexicographic (type string first, then the vector)
          (match tp1, tp2 with
           | some t1, some t2 => (cmpBytesL t1 t2).then (cmpVec r es1 es2)
           | some _, none => .lt
           | none, some _ => .gt
           | none, none => cmpVec r es1 es2)
      | _ => .gt
  | .map _ en1, other =>
      match other with
      | .map _ en2 => cmpPairs r (sortByKey r en1) (sortByKey r en2)
      | _ => .gt

/-- Fuelled Ord comparison: one cmpBody layer per unit of fuel. -/
def cmpF : Nat → Value → Value → Ordering
  | 0, _, _ => .eq
  | n + 1, a, b => cmpBody (cmpF n) a b

/-- The Ord implementation of value.rs.  The fuel vdepth a + vdepth b
strictly dominates the recursion depth (every nested comparison is between
strict subterms), so the fuelled computation never exhausts. -/
def cmp (a b : Value) : Ordering := cmpF (vdepth a + vdepth b) a b

/-! ### The PartialEq implementation of value.rs

Same-variant payloads compare for equality; Map values compare their entry
lists sorted by key (the type name is not compared, because the comparison
goes through the Deref to the inner HashMap); any NaN makes a Double
comparison false; different variants are never equal. -/

/-- Equality of f64 values (NaN equals nothing, signed zeros collapsed by
the model). -/
def f64Eq (a b : F64) : Bool :=
  match a, b with
  | .num p, .num q => p = q
  | .inf s1, .inf s2 => s1 = s2
  | _, _ => false

/-- One layer of PartialEq with e the nested equality and r the nested
comparison (used to sort map entries). -/
def eqBody (e : Value → Value → Bool) (r : Value → Value → Ordering)
    (a b : Value) : Bool :=
  match a, b with
  | .null, .null => true
  | .bool x, .bool y => x = y
  | .int x, .int y => x = y
  | .long x, .long y => x = y
  | .double x, .double y => f64Eq x y
  | .date x, .date y => x = y
  | .bytes x, .bytes y => x = y
  | .str x, .str y => x = y
  | .ref x, .ref y => x = y
  | .list tp1 es1, .list tp2 es2 =>
      (match tp1, tp2 with
       | some t1, some t2 => t1 = t2
       | none, none => true
       | _, _ => false) &&
      es1.length = es2.length && (es1.zip es2).all (fun p => e p.1 p.2)
  | .map _ en1, .map _ en2 =>
      let s1 := sortByKey r en1
      let s2 := sortByKey r en2
      s1.length = s2.length &&
        (s1.zip s2).all (fun p => e p.1.1 p.2.1 && e p.1.2 p.2.2)
  | _, _ => false

/-- Fuelled PartialEq. -/
def eqF : Nat → Value → Value → Bool
  | 0, _, _ => false
  | n + 1, a, b => eqBody (eqF n) (cmpF n) a b

/-- The PartialEq implementation of value.rs (fuel as for cmp). -/
def valueEq (a b : Value) : Bool := eqF (vdepth a + vdepth b) a b


/-! ### The encoder (ser.rs)

The Serializer writes to a Vec sink (which never fails); the only failure
mode is a panic, modelled as Option none.  Of its state only the type cache
is reachable from serialize_value (the class cache is touched only by
write_definition, which serialize_value never calls), so the encoder state
is the type cache: the insertion-ordered list of type names already
emitted. -/

/-- serialize_int: the four compact int forms, smallest first. -/
def serialize_int (v : ℤ) : List Nat :=
  if -16 ≤ v ∧ v ≤ 47 then
    [u8 (0x90 + v)]
  else if -2048 ≤ v ∧ v ≤ 2047 then
    [u8 (Int.emod (shr v 8) 256 + 0xc8), u8 v]
  else if -262144 ≤ v ∧ v ≤ 262143 then
    [u8 (Int.emod (shr v 16) 256 + 0xd4), byteAt v 8, u8 v]
  else
    0x49 :: be4 v

/-- serialize_long: the five long forms, smallest first. -/
def serialize_long (v : ℤ) : List Nat :=
  if -8 ≤ v ∧ v ≤ 15 then
    [u8 (0xe0 + v)]
  else if -2048 ≤ v ∧ v ≤ 2047 then
    [u8 (shr v 8 + 0xf8), u8 v]
  else if -262144 ≤ v ∧ v ≤ 262143 then
    [u8 (shr v 16 + 0x3c), byteAt v 8, u8 v]
  else if -2147483648 ≤ v ∧ v ≤ 2147483647 then
    0x59 :: be4 v
  else
    0x4c :: be8 v

/-- serialize_date: always the 8-byte millisecond form. -/
def serialize_date (d : ℤ) : List Nat := 0x4a :: be8 d

/-- serialize_ref: 0x51 then the ref number cast to i32 and written as a
compact int. -/
def serialize_ref (r : Nat) : List Nat := 0x51 :: serialize_int (i32ofU32 r)

/-- serialize_double.  The source first truncates to i32 (a saturating
cast); if the value equals that truncation (within f64::EPSILON) it matches
on the i32: 0, 1, the i8 range, the i16 range - and the remaining integral
case writes nothing at all.  Otherwise it tries the 0x5f milli form and
falls back to the 8-byte form.  NaN and the infinities always reach the
8-byte form (every comparison with NaN is false). -/
def serialize_double (v : F64) : List Nat :=
  match v with
  | .nan => 0x44 :: [0x7f, 0xf8, 0, 0, 0, 0, 0, 0]
  | .inf neg =>
      0x44 :: (if neg then [0xff, 0xf0, 0, 0, 0, 0, 0, 0]
               else [0x7f, 0xf0, 0, 0, 0, 0, 0, 0])
  | .num q =>
      let int_v : ℤ := satI32 (truncQ q)
      if absQ (qsub (int_v : ℚ) q) < f64EPSILON then
        if int_v = 0 then [0x5b]
        else if int_v = 1 then [0x5c]
        else if -128 ≤ int_v ∧ int_v ≤ 127 then [0x5d, u8 int_v]
        else if -32768 ≤ int_v ∧ int_v ≤ 32767 then
          [0x5e, byteAt int_v 8, u8 int_v]
        else []
      else
        let mills : ℚ := qmul q 1000
        if absQ (qsub (qmul mills (Rat.divInt 1 1000)) q) < f64EPSILON then
          0x5f :: be4 (satI32 (truncQ mills))
        else
          0x44 :: f64be q

/-- Split a list into chunks of at most n elements (slice::chunks). -/
def chunksOfF : Nat → Nat → List Nat → List (List Nat)
  | 0, _, _ => []
  | _, _, [] => []
  | fuel + 1, n, l => l.take n :: chunksOfF fuel n (l.drop n)

/-- Emit the chunk chain of serialize_binary: every chunk is tagged 0x41
except the last (0x42), and - faithful to the source - every chunk carries
the SAME length field, the total length cast to u16, not its own size. -/
def binChunks (lenField : List Nat) : List (List Nat) → List Nat
  | [] => []
  | [c] => 0x42 :: lenField ++ c
  | c :: rest => (0x41 :: lenField ++ c) ++ binChunks lenField rest

/-- serialize_binary.  For short payloads the source computes
(v.len() - 0x20) as u8; the usize subtraction underflows for every length
below 0x20 and wraps (release mode), yielding 0xe0 + len rather than the
0x20 + len the wire format requires.  Longer payloads are chunked with the
total length, cast to u16, repeated in every chunk header. -/
def serialize_binary (v : List Nat) : List Nat :=
  if v.length < 16 then
    u8 ((v.length : ℤ) - 0x20) :: v
  else
    binChunks (be2 (v.length % 65536)) (chunksOfF (v.length + 1) 0xffff v)

/-- Rust slice indexing bytes[a..b]: none models the panic when the range
is invalid. -/
def sliceRange (bs : List Nat) (a b : Nat) : Option (List Nat) :=
  if a ≤ b ∧ b ≤ bs.length then some ((bs.drop a).take (b - a)) else none

/-- The character-counting chunk loop of serialize_string.  State mirrors
the source: cursor i, running character count len, slice bookkeeping offset
and last, and the bytes written so far.  One fuel unit per loop iteration;
the cursor strictly advances, so fuel = byte length + 1 never exhausts. -/
def string_chunk_loop :
    Nat → List Nat → Nat → Nat → Nat → Nat → List Nat → Option (List Nat)
  | 0, _, _, _, _, _, _ => none
  | fuel + 1, bytes, i, len, offset, last, out =>
    if h : i < bytes.length then
      let byte := bytes.get ⟨i, h⟩
      let len1 := len + 1
      let i1 :=
        if 0 < byte &&& 0x80 then
          if byte &&& 0xe0 = 0xc0 then i + 2
          else if byte &&& 0xf0 = 0xe0 then i + 3
          else i + 4
        else i + 1
      if 0x8000 ≤ len1 then
        match sliceRange bytes offset (i1 - last) with
        | none => none
        | some payload =>
            string_chunk_loop fuel bytes i1 0 (offset + i1) i1
              (out ++ 0x52 :: be2 (len1 % 65536) ++ payload)
      else
        string_chunk_loop fuel bytes i1 len1 offset last out
    else
      let pre : List Nat :=
        if len ≤ 31 then [len]
        else if len ≤ 1023 then [0x30 + len / 256 % 256, len % 256]
        else 0x53 :: be2 (len % 65536)
      match sliceRange bytes offset (i - last) with
      | none => none
      | some payload => some (out ++ pre ++ payload)

/-- serialize_string, on the UTF-8 bytes of the string. -/
def serialize_string (v : List Nat) : Option (List Nat) :=
  string_chunk_loop (v.length + 1) v 0 0 0 0 []

/-- write_type: an already-cached type name is written as its index (as a
compact int); otherwise the name is written as a string and appended to the
cache. -/
def write_type (tp : List Nat) (cache : List (List Nat)) :
    Option (List Nat × List (List Nat)) :=
  match cache.findIdx? (fun s => s == tp) with
  | some inx => some (serialize_int (i32ofUsize inx), cache)
  | none => (serialize_string tp).map (fun out => (out, cache ++ [tp]))

/-- write_list_begin. -/
def write_list_begin (length : Nat) (tp : Option (List Nat))
    (cache : List (List Nat)) : Option (List Nat × List (List Nat)) :=
  if length ≤ 7 then
    match tp with
    | some t => (write_type t cache).map (fun p => ((0x70 + length) :: p.1, p.2))
    | none => some ([0x78 + length], cache)
  else
    match tp with
    | some t =>
        (write_type t cache).map
          (fun p => (0x56 :: p.1 ++ serialize_int (i32ofUsize length), p.2))
    | none => some (0x58 :: serialize_int (i32ofUsize length), cache)

/-- write_map_start. -/
def write_map_start (tp : Option (List Nat)) (cache : List (List Nat)) :
    Option (List Nat × List (List Nat)) :=
  match tp with
  | some t => (write_type t cache).map (fun p => (0x4d :: p.1, p.2))
  | none => some ([0x48], cache)

mutual

/-- serialize_value: dispatch on the Value variant, threading the type
cache. -/
def serialize_value : Value → List (List Nat) → Option (List Nat × List (List Nat))
  | .int i, c => some (serialize_int i, c)
  | .bytes b, c => some (serialize_binary b, c)
  | .str s, c => (serialize_string s).map (fun out => (out, c))
  | .bool b, c => some ([if b then 0x54 else 0x46], c)
  | .null, c => some ([0x4e], c)
  | .long l, c => some (serialize_long l, c)
  | .date d, c => some (serialize_date d, c)
  | .double d, c => some (serialize_double d, c)
  | .ref r, c => some (serialize_ref r, c)
  | .list tp es, c =>
      match write_list_begin es.length tp c with
      | none => none
      | some (hd, c1) =>
          match serialize_seq es c1 with
          | none => none
          | some (body, c2) => some (hd ++ body, c2)
  | .map tp en, c =>
      match write_map_start tp c with
      | none => none
      | some (hd, c1) =>
          match serialize_entries en c1 with
          | none => none
          | some (body, c2) => some (hd ++ body ++ [0x5a], c2)

/-- Serialize list elements in order. -/
def serialize_seq : List Value → List (List Nat) → Option (List Nat × List (List Nat))
  | [], c => some ([], c)
  | v :: vs, c =>
      match serialize_value v c with
      | none => none
      | some (b1, c1) =>
          match serialize_seq vs c1 with
          | none => none
          | some (b2, c2) => some (b1 ++ b2, c2)

/-- Serialize map entries in order (key then value). -/
def serialize_entries :
    List (Value × Value) → List (List Nat) → Option (List Nat × List (List Nat))
  | [], c => some ([], c)
  | kv :: rest, c =>
      match serialize_value kv.1 c with
      | none => none
      | some (bk, c1) =>
          match serialize_value kv.2 c1 with
          | none => none
          | some (bv, c2) =>
              match serialize_entries rest c2 with
              | none => none
              | some (b2, c3) => some (bk ++ bv ++ b2, c3)

end

/-- to_vec: serialize one Value with a fresh Serializer and return the
bytes. -/
def to_vec (v : Value) : Option (List Nat) :=
  (serialize_value v []).map Prod.fst


/-! ### The tag classifier (constant.rs ByteCodecType::from) -/

inductive IntTag where
  | direct (b : Nat) | byte (b : Nat) | short (b : Nat) | normal
deriving Repr, DecidableEq

inductive LongTag where
  | direct (b : Nat) | byte (b : Nat) | short (b : Nat) | int32 | normal
deriving Repr, DecidableEq

inductive DoubleTag where
  | zero | one | byte | short | float | normal
deriving Repr, DecidableEq

inductive DateTag where
  | millisecond | minute
deriving Repr, DecidableEq

inductive BinTag where
  | short (b : Nat) | twoOctet (b : Nat) | long (b : Nat)
deriving Repr, DecidableEq

inductive StrTag where
  | compact (b : Nat) | small (b : Nat) | chunk | finalChunk
deriving Repr, DecidableEq

inductive ListTag where
  | varLength (typed : Bool)
  | fixedLength (typed : Bool)
  | shortFixedLength (typed : Bool) (length : Nat)
deriving Repr, DecidableEq

inductive ObjTag where
  | compact (b : Nat) | normal
deriving Repr, DecidableEq

inductive ByteCodecType where
  | bTrue | bFalse | null
  | definition
  | object (o : ObjTag)
  | ref
  | int (i : IntTag)
  | long (l : LongTag)
  | double (d : DoubleTag)
  | date (d : DateTag)
  | binary (b : BinTag)
  | list (l : ListTag)
  | map (typed : Bool)
  | str (s : StrTag)
  | unknown
deriving Repr, DecidableEq

/-- ByteCodecType::from: classify a lead byte.  The Rust match arms are
disjoint, so the if chain below (in source order) is equivalent. -/
def byteCodecType (c : Nat) : ByteCodecType :=
  if c = 0x54 then .bTrue
  else if c = 0x46 then .bFalse
  else if c = 0x4e then .null
  else if c = 0x51 then .ref
  else if c = 0x4d then .map true
  else if c = 0x48 then .map false
  else if c = 0x55 then .list (.varLength true)
  else if c = 0x56 then .list (.fixedLength true)
  else if c = 0x57 then .list (.varLength false)
  else if c = 0x58 then .list (.fixedLength false)
  else if 0x70 ≤ c ∧ c ≤ 0x77 then .list (.shortFixedLength true (c - 0x70))
  else if 0x78 ≤ c ∧ c ≤ 0x7f then .list (.shortFixedLength false (c - 0x78))
  else if c = 0x4f then .object .normal
  else if 0x60 ≤ c ∧ c ≤ 0x6f then .object (.compact c)
  else if c = 0x43 then .definition
  else if 0x80 ≤ c ∧ c ≤ 0xbf then .int (.direct c)
  else if 0xc0 ≤ c ∧ c ≤ 0xcf then .int (.byte c)
  else if 0xd0 ≤ c ∧ c ≤ 0xd7 then .int (.short c)
  else if c = 0x49 then .int .normal
  else if 0xd8 ≤ c ∧ c ≤ 0xef then .long (.direct c)
  else if 0xf0 ≤ c ∧ c ≤ 0xff then .long (.byte c)
  else if 0x38 ≤ c ∧ c ≤ 0x3f then .long (.short c)
  else if c = 0x59 then .long .int32
  else if c = 0x4c then .long .normal
  else if c = 0x5b then .double .zero
  else if c = 0x5c then .double .one
  else if c = 0x5d then .double .byte
  else if c = 0x5e then .double .short
  else if c = 0x5f then .double .float
  else if c = 0x44 then .double .normal
  else if c = 0x4a then .date .millisecond
  else if c = 0x4b then .date .minute
  else if 0x20 ≤ c ∧ c ≤ 0x2f then .binary (.short c)
  else if 0x34 ≤ c ∧ c ≤ 0x37 then .binary (.twoOctet c)
  else if c = 0x42 ∨ c = 0x41 then .binary (.long c)
  else if c ≤ 0x1f then .str (.compact c)
  else if 0x30 ≤ c ∧ c ≤ 0x33 then .str (.small c)
  else if c = 0x52 then .str .chunk
  else if c = 0x53 then .str .finalChunk
  else .unknown

/-! ### The decoder (de.rs)

State: the remaining input bytes, the type reference table and the class
definition table.  Errors mirror error.rs plus the io EOF error; fuelOut
marks fuel exhaustion of the embedding, unreachable for the fuel from_slice
supplies.  UnexpectedType carries a display string in the source, dropped
here. -/

structure DState where
  input : List Nat
  typeRefs : List (List Nat)
  classRefs : List Definition
deriving Repr

inductive DErr where
  | eof
  | fuelOut
  | unknownType
  | unexpectedType
  | outOfTypeRefRange (i : Nat)
  | outOfDefinitionRange (i : Nat)
deriving Repr, DecidableEq

/-- Result of a decoding step: an error, or a value and the new state. -/
abbrev DRes (α : Type) := Except DErr (α × DState)

/-- read_byte. -/
def readByte (st : DState) : DRes Nat :=
  match st.input with
  | [] => .error .eof
  | b :: rest => .ok (b, { st with input := rest })

/-- peek_byte: read without advancing. -/
def peekByte (st : DState) : DRes Nat :=
  match st.input with
  | [] => .error .eof
  | b :: _ => .ok (b, st)

/-- read_bytes n: take n bytes or fail with EOF. -/
def readBytesN (n : Nat) (st : DState) : DRes (List Nat) :=
  if n ≤ st.input.length then
    .ok (st.input.take n, { st with input := st.input.drop n })
  else .error .eof

/-- read_u16 big-endian. -/
def readU16 (st : DState) : DRes Nat :=
  match readBytesN 2 st with
  | .error e => .error e
  | .ok (bs, st1) => .ok ((bs.getD 0 0) * 256 + bs.getD 1 0, st1)

/-- read_i16 big-endian, then cast to usize as the binary chunk reader
does (a negative length wraps to a huge usize and the subsequent read
fails). -/
def readI16usize (st : DState) : DRes Nat :=
  match readBytesN 2 st with
  | .error e => .error e
  | .ok (bs, st1) => .ok (usizeOf (i16ofBE (bs.getD 0 0) (bs.getD 1 0)), st1)

/-- read_int: the four integer sub-encodings.  The lead-byte subtractions
are u8 wrapping subtractions whose result is reinterpreted as the high
octet of a signed reassembly. -/
def read_int (i : IntTag) (st : DState) : DRes Value :=
  match i with
  | .direct b => .ok (.int ((b : ℤ) - 0x90), st)
  | .byte b =>
      match readByte st with
      | .error e => .error e
      | .ok (b2, st1) => .ok (.int (i16ofBE (wrapSub b 0xc8) b2), st1)
  | .short b =>
      match readBytesN 2 st with
      | .error e => .error e
      | .ok (bs, st1) =>
          .ok (.int (shr (i32ofBE (wrapSub b 0xd4) (bs.getD 0 0) (bs.getD 1 0) 0) 8), st1)
  | .normal =>
      match readBytesN 4 st with
      | .error e => .error e
      | .ok (bs, st1) =>
          .ok (.int (i32ofBE (bs.getD 0 0) (bs.getD 1 0) (bs.getD 2 0) (bs.getD 3 0)), st1)

/-- read_long: the five long sub-encodings. -/
def read_long (l : LongTag) (st : DState) : DRes Value :=
  match l with
  | .direct b => .ok (.long ((b : ℤ) - 0xe0), st)
  | .byte b =>
      match readByte st with
      | .error e => .error e
      | .ok (b2, st1) => .ok (.long (i16ofBE (wrapSub b 0xf8) b2), st1)
  | .short b =>
      match readBytesN 2 st with
      | .error e => .error e
      | .ok (bs, st1) =>
          .ok (.long (shr (i32ofBE (wrapSub b 0x3c) (bs.getD 0 0) (bs.getD 1 0) 0) 8), st1)
  | .int32 =>
      match readBytesN 4 st with
      | .error e => .error e
      | .ok (bs, st1) =>
          .ok (.long (i32ofBE (bs.getD 0 0) (bs.getD 1 0) (bs.getD 2 0) (bs.getD 3 0)), st1)
  | .normal =>
      match readBytesN 8 st with
      | .error e => .error e
      | .ok (bs, st1) => .ok (.long (i64ofBE bs), st1)

/-- The i8 reinterpretation of a byte (read_i8). -/
def i8of (b : Nat) : ℤ := if b < 128 then (b : ℤ) else (b : ℤ) - 256

/-- read_double: the six double sub-encodings.  The 0x5f form scales the
i32 by 0.001; the f64 multiplication is modelled by the exact rational
scaling. -/
def read_double (d : DoubleTag) (st : DState) : DRes Value :=
  match d with
  | .zero => .ok (.double (.num 0), st)
  | .one => .ok (.double (.num 1), st)
  | .byte =>
      match readByte st with
      | .error e => .error e
      | .ok (b, st1) => .ok (.double (.num (i8of b : ℚ)), st1)
  | .short =>
      match readBytesN 2 st with
      | .error e => .error e
      | .ok (bs, st1) =>
          .ok (.double (.num (i16ofBE (bs.getD 0 0) (bs.getD 1 0) : ℚ)), st1)
  | .float =>
      match readBytesN 4 st with
      | .error e => .error e
      | .ok (bs, st1) =>
          .ok (.double (.num (qmul (i32ofBE (bs.getD 0 0) (bs.getD 1 0) (bs.getD 2 0) (bs.getD 3 0) : ℚ) (Rat.divInt 1 1000))), st1)
  | .normal =>
      match readBytesN 8 st with
      | .error e => .error e
      | .ok (bs, st1) => .ok (.double (f64frombits bs), st1)

/-- read_date: 8-byte milliseconds, or 4-byte minutes times 60000. -/
def read_date (d : DateTag) (st : DState) : DRes Value :=
  match d with
  | .millisecond =>
      match readBytesN 8 st with
      | .error e => .error e
      | .ok (bs, st1) => .ok (.date (i64ofBE bs), st1)
  | .minute =>
      match readBytesN 4 st with
      | .error e => .error e
      | .ok (bs, st1) =>
          .ok (.date (i32ofBE (bs.getD 0 0) (bs.getD 1 0) (bs.getD 2 0) (bs.getD 3 0) * 60000), st1)

/-- read_long_binary: collect 0x41 chunks, then one final chunk (0x42, a
compact tag, or a two-octet tag); any other tag silently ends the chain.
One fuel unit per chunk. -/
def read_long_binary : Nat → Nat → DState → DRes (List Nat)
  | 0, _, _ => .error .fuelOut
  | fuel + 1, tag, st =>
    if tag = 0x41 then
      match readI16usize st with
      | .error e => .error e
      | .ok (len, st1) =>
          match readBytesN len st1 with
          | .error e => .error e
          | .ok (chunk, st2) =>
              match readByte st2 with
              | .error e => .error e
              | .ok (nt, st3) =>
                  match read_long_binary fuel nt st3 with
                  | .error e => .error e
                  | .ok (rest, st4) => .ok (chunk ++ rest, st4)
    else if tag = 0x42 then
      match readI16usize st with
      | .error e => .error e
      | .ok (len, st1) => readBytesN len st1
    else if 0x20 ≤ tag ∧ tag ≤ 0x2f then
      readBytesN (tag - 0x20) st
    else if 0x34 ≤ tag ∧ tag ≤ 0x37 then
      match readByte st with
      | .error e => .error e
      | .ok (b2, st1) => readBytesN ((tag - 0x34) * 256 + b2) st1
    else .ok ([], st)

/-- read_binary: dispatch on the binary sub-encoding. -/
def read_binary (fuel : Nat) (bin : BinTag) (st : DState) : DRes Value :=
  match bin with
  | .short b =>
      match readBytesN (b - 0x20) st with
      | .error e => .error e
      | .ok (bs, st1) => .ok (.bytes bs, st1)
  | .twoOctet b =>
      match readByte st with
      | .error e => .error e
      | .ok (b2, st1) =>
          match readBytesN ((b - 0x34) * 256 + b2) st1 with
          | .error e => .error e
          | .ok (bs, st2) => .ok (.bytes bs, st2)
  | .long b =>
      match read_long_binary fuel b st with
      | .error e => .error e
      | .ok (bs, st1) => .ok (.bytes bs, st1)

/-- read_utf8_string: consume len characters.  A lead byte selects how many
continuation bytes to consume; a lead byte outside every recognized range
is consumed, dropped, and still counted as one character.  No UTF-8
validation happens. -/
def read_utf8_string : Nat → DState → DRes (List Nat)
  | 0, st => .ok ([], st)
  | len + 1, st =>
    match readByte st with
    | .error e => .error e
    | .ok (b, st1) =>
        if b ≤ 0x7f then
          match read_utf8_string len st1 with
          | .error e => .error e
          | .ok (s, st2) => .ok (b :: s, st2)
        else if 0xc2 ≤ b ∧ b ≤ 0xdf then
          match readByte st1 with
          | .error e => .error e
          | .ok (b2, st2) =>
              match read_utf8_string len st2 with
              | .error e => .error e
              | .ok (s, st3) => .ok (b :: b2 :: s, st3)
        else if 0xe0 ≤ b ∧ b ≤ 0xef then
          match readBytesN 2 st1 with
          | .error e => .error e
          | .ok (buf, st2) =>
              match read_utf8_string len st2 with
              | .error e => .error e
              | .ok (s, st3) => .ok (b :: (buf ++ s), st3)
        else if 0xf0 ≤ b ∧ b ≤ 0xf4 then
          match readBytesN 3 st1 with
          | .error e => .error e
          | .ok (buf, st2) =>
              match read_utf8_string len st2 with
              | .error e => .error e
              | .ok (s, st3) => .ok (b :: (buf ++ s), st3)
        else
          read_utf8_string len st1

/-- read_string_internal: dispatch on the raw string tag byte; 0x52 chunks
recurse on the following tag.  One fuel unit per chunk. -/
def read_string_internal : Nat → Nat → DState → DRes (List Nat)
  | 0, _, _ => .error .fuelOut
  | fuel + 1, tag, st =>
    if tag ≤ 0x1f then
      read_utf8_string tag st
    else if 0x30 ≤ tag ∧ tag ≤ 0x33 then
      match readByte st with
      | .error e => .error e
      | .ok (b2, st1) => read_utf8_string ((tag - 0x30) * 256 + b2) st1
    else if tag = 0x52 then
      match readU16 st with
      | .error e => .error e
      | .ok (len, st1) =>
          match read_utf8_string len st1 with
          | .error e => .error e
          | .ok (s1, st2) =>
              match readByte st2 with
              | .error e => .error e
              | .ok (nt, st3) =>
                  match read_string_internal fuel nt st3 with
                  | .error e => .error e
                  | .ok (s2, st4) => .ok (s1 ++ s2, st4)
    else if tag = 0x53 then
      match readU16 st with
      | .error e => .error e
      | .ok (len, st1) => read_utf8_string len st1
    else .ok ([], st)

/-- read_string: collect the chunk bytes and wrap them as a String without
any UTF-8 validation (String::from_utf8_unchecked). -/
def read_string (fuel : Nat) (tag : Nat) (st : DState) : DRes Value :=
  match read_string_internal fuel tag st with
  | .error e => .error e
  | .ok (bs, st1) => .ok (.str bs, st1)

/-- read_type: a String value registers itself in the type table and is
returned; an Int selects a previous entry (a negative index wraps to a huge
usize and fails). -/
def read_type (rv : DState → DRes Value) (st : DState) : DRes (List Nat) :=
  match rv st with
  | .ok (.str s, st1) => .ok (s, { st1 with typeRefs := st1.typeRefs ++ [s] })
  | .ok (.int i, st1) =>
      match st1.typeRefs.get? (usizeOf i) with
      | some res => .ok (res, st1)
      | none => .error (.outOfTypeRefRange (usizeOf i))
  | .ok _ => .error .unexpectedType
  | .error e => .error e

/-- read_definition field loop: each field name must decode to a String; a
non-string value is an UnexpectedType error and a decoding failure is
reported as UnknownType. -/
def read_definition_fields (rv : DState → DRes Value) :
    Nat → DState → Except DErr (List (List Nat) × DState)
  | 0, st => .ok ([], st)
  | n + 1, st =>
    match rv st with
    | .ok (.str s, st1) =>
        match read_definition_fields rv n st1 with
        | .error e => .error e
        | .ok (fs, st2) => .ok (s :: fs, st2)
    | .ok _ => .error .unexpectedType
    | .error _ => .error .unknownType

/-- read_definition: name (String), field count (Int), then the field
names; the new Definition is appended to the class table.  A non-string
name or non-int count (or a failure while reading them) is UnknownType.
A negative field count iterates zero times. -/
def read_definition (rv : DState → DRes Value) (st : DState) :
    Except DErr (Unit × DState) :=
  match rv st with
  | .ok (.str n, st1) =>
      match rv st1 with
      | .ok (.int len, st2) =>
          match read_definition_fields rv (Int.toNat len) st2 with
          | .error e => .error e
          | .ok (fs, st3) =>
              .ok ((), { st3 with classRefs := st3.classRefs ++ [⟨n, fs⟩] })
      | _ => .error .unknownType
  | _ => .error .unknownType

/-- HashMap::insert modelled on the entry list: an existing key (by the
PartialEq of value.rs, with the given equality fuel) has its value
replaced in place; otherwise the new pair is appended. -/
def insertEntry (eqFuel : Nat) (k v : Value) (entries : List (Value × Value)) :
    List (Value × Value) :=
  if entries.any (fun kv => eqF eqFuel kv.1 k) then
    entries.map (fun kv => if eqF eqFuel kv.1 k then (kv.1, v) else kv)
  else entries ++ [(k, v)]

/-- The field loop of read_object: pair each field name, in order, with the
next decoded value, inserting into the map as the source does. -/
def read_object_fields (rv : DState → DRes Value) (eqFuel : Nat) :
    List (List Nat) → List (Value × Value) → DState →
    Except DErr (List (Value × Value) × DState)
  | [], acc, st => .ok (acc, st)
  | f :: fs, acc, st =>
    match rv st with
    | .error e => .error e
    | .ok (v, st1) =>
        read_object_fields rv eqFuel fs (insertEntry eqFuel (.str f) v acc) st1

/-- read_object: read the definition index as an integer value, look the
Definition up, then read one value per field.  The result is an UNTYPED map
(the source builds a plain HashMap and converts it with Map::from, which
yields Map::Untyped; the definition name is discarded). -/
def read_object (rv : DState → DRes Value) (eqFuel : Nat) (st : DState) :
    DRes Value :=
  match rv st with
  | .error e => .error e
  | .ok (.int i, st1) =>
      match st1.classRefs.get? (usizeOf i) with
      | none => .error (.outOfDefinitionRange (usizeOf i))
      | some d =>
          match read_object_fields rv eqFuel d.fields [] st1 with
          | .error e => .error e
          | .ok (entries, st2) => .ok (.map none entries, st2)
  | .ok _ => .error .unexpectedType

/-- read_ref: the following value must be an Int, reinterpreted as u32. -/
def read_ref (rv : DState → DRes Value) (st : DState) : DRes Value :=
  match rv st with
  | .error e => .error e
  | .ok (.int i, st1) => .ok (.ref (u32of i), st1)
  | .ok _ => .error .unexpectedType

/-- read_exact_length_list_internal: read exactly n values. -/
def read_exact_list (rv : DState → DRes Value) :
    Nat → DState → Except DErr (List Value × DState)
  | 0, st => .ok ([], st)
  | n + 1, st =>
    match rv st with
    | .error e => .error e
    | .ok (v, st1) =>
        match read_exact_list rv n st1 with
        | .error e => .error e
        | .ok (vs, st2) => .ok (v :: vs, st2)

/-- read_varlength_list_internal: read values until a peeked 0x5a, which is
consumed.  One fuel unit per element. -/
def read_var_list (rv : DState → DRes Value) :
    Nat → DState → Except DErr (List Value × DState)
  | 0, _ => .error .fuelOut
  | fuel + 1, st =>
    match peekByte st with
    | .error e => .error e
    | .ok (tag, st0) =>
        if tag = 0x5a then
          match readByte st0 with
          | .error e => .error e
          | .ok (_, st1) => .ok ([], st1)
        else
          match rv st0 with
          | .error e => .error e
          | .ok (v, st1) =>
              match read_var_list rv fuel st1 with
              | .error e => .error e
              | .ok (vs, st2) => .ok (v :: vs, st2)

/-- read_varlength_map_internal: key-value pairs until a peeked 0x5a,
inserted in stream order. -/
def read_var_map (rv : DState → DRes Value) (eqFuel : Nat) :
    Nat → List (Value × Value) → DState →
    Except DErr (List (Value × Value) × DState)
  | 0, _, _ => .error .fuelOut
  | fuel + 1, acc, st =>
    match peekByte st with
    | .error e => .error e
    | .ok (tag, st0) =>
        if tag = 0x5a then
          match readByte st0 with
          | .error e => .error e
          | .ok (_, st1) => .ok (acc, st1)
        else
          match rv st0 with
          | .error e => .error e
          | .ok (k, st1) =>
              match rv st1 with
              | .error e => .error e
              | .ok (v, st2) =>
                  read_var_map rv eqFuel fuel (insertEntry eqFuel k v acc) st2

/-- read_list: dispatch on the list sub-encoding.  A fixed length decoded
as a negative Int wraps to a huge usize (and the element loop fails at
EOF). -/
def read_list (rv : DState → DRes Value) (fuel : Nat) (l : ListTag)
    (st : DState) : DRes Value :=
  match l with
  | .shortFixedLength typed length =>
      if typed then
        match read_type rv st with
        | .error e => .error e
        | .ok (typ, st1) =>
            match read_exact_list rv length st1 with
            | .error e => .error e
            | .ok (vs, st2) => .ok (.list (some typ) vs, st2)
      else
        match read_exact_list rv length st with
        | .error e => .error e
        | .ok (vs, st1) => .ok (.list none vs, st1)
  | .varLength typed =>
      if typed then
        match read_type rv st with
        | .error e => .error e
        | .ok (typ, st1) =>
            match read_var_list rv fuel st1 with
            | .error e => .error e
            | .ok (vs, st2) => .ok (.list (some typ) vs, st2)
      else
        match read_var_list rv fuel st with
        | .error e => .error e
        | .ok (vs, st1) => .ok (.list none vs, st1)
  | .fixedLength typed =>
      if typed then
        match read_type rv st with
        | .error e => .error e
        | .ok (typ, st1) =>
            match rv st1 with
            | .error e => .error e
            | .ok (.int l2, st2) =>
                match read_exact_list rv (usizeOf l2) st2 with
                | .error e => .error e
                | .ok (vs, st3) => .ok (.list (some typ) vs, st3)
            | .ok _ => .error .unexpectedType
      else
        match rv st with
        | .error e => .error e
        | .ok (.int l2, st1) =>
            match read_exact_list rv (usizeOf l2) st1 with
            | .error e => .error e
            | .ok (vs, st2) => .ok (.list none vs, st2)
        | .ok _ => .error .unexpectedType

/-- read_map: typed maps read a type name first; pairs until 0x5a. -/
def read_map (rv : DState → DRes Value) (eqFuel : Nat) (fuel : Nat)
    (typed : Bool) (st : DState) : DRes Value :=
  if typed then
    match read_type rv st with
    | .error e => .error e
    | .ok (typ, st1) =>
        match read_var_map rv eqFuel fuel [] st1 with
        | .error e => .error e
        | .ok (en, st2) => .ok (.map (some typ) en, st2)
  else
    match read_var_map rv eqFuel fuel [] st with
    | .error e => .error e
    | .ok (en, st1) => .ok (.map none en, st1)

/-- read_value: read the lead byte, classify it, and dispatch.  Nested and
iterated reads run at one fuel unit less; a class definition is processed
and the next value returned. -/
def readValueF : Nat → DState → DRes Value
  | 0, _ => .error .fuelOut
  | n + 1, st =>
    match readByte st with
    | .error e => .error e
    | .ok (tag, st1) =>
        match byteCodecType tag with
        | .int i => read_int i st1
        | .long l => read_long l st1
        | .double d => read_double d st1
        | .date d => read_date d st1
        | .binary bin => read_binary n bin st1
        | .str _ => read_string n tag st1
        | .list l => read_list (readValueF n) n l st1
        | .map typed => read_map (readValueF n) n n typed st1
        | .bTrue => .ok (.bool true, st1)
        | .bFalse => .ok (.bool false, st1)
        | .null => .ok (.null, st1)
        | .definition =>
            match read_definition (readValueF n) st1 with
            | .error e => .error e
            | .ok (_, st2) => readValueF n st2
        | .ref => read_ref (readValueF n) st1
        | .object _ => read_object (readValueF n) n st1
        | .unknown => .error .unknownType

/-- from_slice: decode one value from a byte slice with a fresh
Deserializer.  The fuel 2 * length + 8 strictly dominates the recursion
depth plus the loop iterations (each costs at least one consumed byte), so
fuelOut is unreachable. -/
def from_slice (v : List Nat) : Except DErr Value :=
  match readValueF (2 * v.length + 8) ⟨v, [], []⟩ with
  | .ok (val, _) => .ok val
  | .error e => .error e


/-! ### Connection of the computable rational helpers to the standard
operations -/

theorem qmul_eq_mul (a b : ℚ) : qmul a b = a * b := by
  rw [Rat.mul_def]; rfl

theorem qsub_eq_sub (a b : ℚ) : qsub a b = a - b := by
  rw [Rat.sub_def]; rfl

/-! ### C1: decode after encode -/

/-- C1: the claim from_slice(to_vec(v)) = Ok(v) for every representable
Value fails: the encoder writes the short-binary lead byte as
(len - 0x20) as u8, which underflows and wraps to 0xe0 + len, so the bytes
value [1, 2, 3] encodes to [0xe3, 1, 2, 3], whose lead byte is a one-octet
Long tag; decoding returns Long(3), not Bytes([1, 2, 3]). -/
theorem C1_roundtrip_bytes_eval :
    to_vec (.bytes [1, 2, 3]) = some [0xe3, 1, 2, 3] ∧
    from_slice [0xe3, 1, 2, 3] = .ok (.long 3) ∧
    Value.long 3 ≠ Value.bytes [1, 2, 3] := by
  refine ⟨by rfl, by rfl, by simp⟩

/-! ### C3: binary encoding -/

/-- C3: the short-binary form claim fails on the code: the lead octet is
computed as (len - 0x20) as u8, a wrapping usize underflow for every
length below 16, yielding 0xe0 + len instead of the claimed 0x20 + len.
(The chunked form moreover stamps the total length, cast to u16, into
every chunk header instead of the chunk's own octet count.) -/
theorem C3_binary_short_eval :
    serialize_binary [1, 2, 3] = [0xe3, 1, 2, 3] ∧
    serialize_binary [] = [0xe0] ∧
    0xe3 ≠ 0x20 + 3 := by
  refine ⟨by decide, by decide, by decide⟩

/-! ### C4: double encoding -/

/-- C4: the double encoder does not always emit at least one byte: an
integral value outside the i16 range but inside i32, such as 40000.0,
reaches the integral match whose catch-all arm writes nothing, so
serialize_double produces zero bytes instead of the claimed 8-byte form.
(All f64 operations on this input are exact, so the rational model
computes the exact Rust control flow.) -/
theorem C4_double_integral_eval :
    serialize_double (.num 40000) = [] := by decide

/-! ### C8: the Value ordering -/

/-- C8: the comparison is not the claimed total order.  float_ord maps an
undefined f64 comparison (partial_cmp returning None) to Less, so
cmp(Double(0), Double(NaN)) is Less - the claim requires Greater - and
cmp(Double(NaN), Double(0)) is Less as well, breaking antisymmetry.
Independently, the Bool arm of the Ord match has no Bool-vs-Bool case, so
two Bools fall through to Less: cmp(Bool(true), Bool(true)) = Less rather
than Equal. -/
theorem C8_ord_eval :
    cmp (.double (.num 0)) (.double .nan) = .lt ∧
    cmp (.double .nan) (.double (.num 0)) = .lt ∧
    cmp (.bool true) (.bool true) = .lt := by
  refine ⟨?_, ?_, ?_⟩ <;> simp [cmp, vdepth] <;> decide

/-! ### C9: is_list -/

/-- C9: is_list does not test the List variant: the source implements it as
as_int().is_some(), so it returns true for every Int value and false for
every List value, while as_list returns Some exactly on List values. -/
theorem C9_is_list_eval :
    is_list (.int 0) = true ∧
    is_list (.list none [.int 3]) = false ∧
    (as_list (.list none [.int 3])).isSome = true ∧
    (as_int (.int 0)).isSome = true := by
  refine ⟨by decide, by decide, by decide, by decide⟩


/-! ### C2: object instantiation decoding

Helper lemmas relating the read_object field loop to a plain sequential
read (read_exact_list) and a zip of field names with values. -/

lemma eqF_str_succ (m : Nat) (a f : List Nat) :
    eqF (m + 1) (.str a) (.str f) = (a == f) := by
  simp only [eqF, eqBody]
  by_cases h : a = f <;> simp [h]

lemma insertEntry_fresh (m : Nat) (f : List Nat) (v : Value)
    (acc : List (Value × Value))
    (h : ∀ kv ∈ acc, ∀ g, kv.1 = Value.str g → g ≠ f) :
    insertEntry (m + 1) (Value.str f) v acc = acc ++ [(Value.str f, v)] := by
  unfold insertEntry
  have hall : acc.any (fun kv => eqF (m + 1) kv.1 (.str f)) = false := by
    rw [List.any_eq_false]
    intro kv hkv
    cases hk : kv.1 with
    | str g =>
        rw [eqF_str_succ]
        simpa using h kv hkv g hk
    | null => simp [eqF, eqBody]
    | bool b => simp [eqF, eqBody]
    | int i => simp [eqF, eqBody]
    | long l => simp [eqF, eqBody]
    | double d => simp [eqF, eqBody]
    | date d => simp [eqF, eqBody]
    | bytes b => simp [eqF, eqBody]
    | ref r => simp [eqF, eqBody]
    | list tp es => simp [eqF, eqBody]
    | map tp en => simp [eqF, eqBody]
  rw [hall]
  simp

lemma read_object_fields_zip (rv : DState → DRes Value) (m : Nat) :
    ∀ (fs : List (List Nat)) (acc : List (Value × Value)) (st : DState)
      (vs : List Value) (st2 : DState),
      read_exact_list rv fs.length st = .ok (vs, st2) →
      fs.Nodup →
      (∀ kv ∈ acc, ∀ g, kv.1 = Value.str g → g ∉ fs) →
      read_object_fields rv (m + 1) fs acc st =
        .ok (acc ++ (fs.map Value.str).zip vs, st2) := by
  intro fs
  induction fs with
  | nil =>
      intro acc st vs st2 hre _ _
      simp [read_exact_list] at hre
      obtain ⟨h1, h2⟩ := hre
      simp [read_object_fields, h1, h2]
  | cons f fs ih =>
      intro acc st vs st2 hre hnd hfresh
      simp only [List.length_cons, read_exact_list] at hre
      cases hv : rv st with
      | error e => rw [hv] at hre; simp at hre
      | ok p =>
          obtain ⟨v, stA⟩ := p
          rw [hv] at hre
          simp only at hre
          cases hrest : read_exact_list rv fs.length stA with
          | error e => rw [hrest] at hre; simp at hre
          | ok q =>
              obtain ⟨vs2, stB⟩ := q
              rw [hrest] at hre
              simp only [Except.ok.injEq, Prod.mk.injEq] at hre
              obtain ⟨hvs, hstB⟩ := hre
              subst hvs hstB
              simp only [read_object_fields, hv]
              have hfresh1 : ∀ kv ∈ acc, ∀ g, kv.1 = Value.str g → g ≠ f := by
                intro kv hkv g hg heq
                exact hfresh kv hkv g hg (by rw [heq]; exact List.mem_cons_self f fs)
              rw [insertEntry_fresh m f v acc hfresh1]
              rw [ih (acc ++ [(Value.str f, v)]) stA vs2 stB hrest
                    (by simpa using hnd.of_cons)
                    (by
                      intro kv hkv g hg
                      rcases List.mem_append.mp hkv with hin | hin
                      · exact fun hmem => hfresh kv hin g hg (List.mem_cons_of_mem f hmem)
                      · have hkv1 : kv = (Value.str f, v) := by simpa using hin
                        rw [hkv1] at hg
                        simp only at hg
                        have hfg : f = g := by injection hg
                        rw [← hfg]
                        exact (List.nodup_cons.mp hnd).1)]
              simp

/-- C2, amended: an object instantiation (the 0x4f form; the compact
0x60-0x6f tags dispatch to the same read_object, which always reads the
index as a following integer value rather than deriving it from the tag)
whose index value decodes to an in-range Int yields an UNTYPED Map pairing
the indexed Definition field names, in order, with the next field_count
decoded values; the Definition name is discarded.  (The original claim said
the Map is typed with the Definition name; the counterexample below
refutes that.) -/
theorem C2_object_untyped_zip (rv : DState → DRes Value) (m : Nat)
    (st st1 st2 : DState) (i : ℤ) (d : Definition) (vs : List Value)
    (h1 : rv st = .ok (.int i, st1))
    (h2 : st1.classRefs.get? (usizeOf i) = some d)
    (h3 : read_exact_list rv d.fields.length st1 = .ok (vs, st2))
    (h4 : d.fields.Nodup) :
    read_object rv (m + 1) st =
      .ok (.map none ((d.fields.map Value.str).zip vs), st2) := by
  unfold read_object
  rw [h1]
  simp only [h2]
  rw [read_object_fields_zip rv m d.fields [] st1 vs st2 h3 h4 (by simp)]
  simp

/-- Witness for C2: decoding the field stream of the example.Car test
object (index 0x90, then the strings "red" and "corvette") against a class
table holding the example.Car definition. -/
theorem C2_object_untyped_zip_witness :
    read_object (readValueF 20) (19 + 1)
      ⟨[0x90, 0x03, 114, 101, 100, 0x08, 99, 111, 114, 118, 101, 116, 116, 101],
        [],
        [⟨[101, 120, 97, 109, 112, 108, 101, 46, 67, 97, 114],
          [[67, 111, 108, 111, 114], [77, 111, 100, 101, 108]]⟩]⟩ =
      .ok (.map none
            ((([[67, 111, 108, 111, 114], [77, 111, 100, 101, 108]] :
                List (List Nat)).map Value.str).zip
              [.str [114, 101, 100], .str [99, 111, 114, 118, 101, 116, 116, 101]]),
        ⟨[], [],
          [⟨[101, 120, 97, 109, 112, 108, 101, 46, 67, 97, 114],
            [[67, 111, 108, 111, 114], [77, 111, 100, 101, 108]]⟩]⟩) :=
  C2_object_untyped_zip (readValueF 20) 19 _ _ _ 0
    ⟨[101, 120, 97, 109, 112, 108, 101, 46, 67, 97, 114],
      [[67, 111, 108, 111, 114], [77, 111, 100, 101, 108]]⟩
    [.str [114, 101, 100], .str [99, 111, 114, 118, 101, 116, 116, 101]]
    (by rfl) (by rfl) (by rfl) (by decide)

/-- Counterexample for C2 as stated: decoding the example.Car definition
followed by its object instantiation (the byte stream of the de.rs
test_read_object test) yields an untyped Map - the type field is none, not
the Definition name "example.Car" the claim requires. -/
theorem C2_object_typed_counterexample :
    from_slice
        [0x43, 0x0b, 101, 120, 97, 109, 112, 108, 101, 46, 67, 97, 114, 0x92,
         0x05, 67, 111, 108, 111, 114, 0x05, 77, 111, 100, 101, 108,
         0x4f, 0x90, 0x03, 114, 101, 100,
         0x08, 99, 111, 114, 118, 101, 116, 116, 101] =
      .ok (.map none
        [(.str [67, 111, 108, 111, 114], .str [114, 101, 100]),
         (.str [77, 111, 100, 101, 108], .str [99, 111, 114, 118, 101, 116, 116, 101])]) ∧
    Value.map none
        [(.str [67, 111, 108, 111, 114], .str [114, 101, 100]),
         (.str [77, 111, 100, 101, 108], .str [99, 111, 114, 118, 101, 116, 116, 101])] ≠
      Value.map (some [101, 120, 97, 109, 112, 108, 101, 46, 67, 97, 114])
        [(.str [67, 111, 108, 111, 114], .str [114, 101, 100]),
         (.str [77, 111, 100, 101, 108], .str [99, 111, 114, 118, 101, 116, 116, 101])] := by
  refine ⟨by rfl, by simp⟩

/-! ### C6: compact integer and long encoded lengths -/

/-- C6: the encoded byte length of Int(n) is 1, 2, 3 or 5 according to the
compact ranges, and of Long(m) is 1, 2, 3, 5 (the 0x59 form on the i32
range) or 9. -/
theorem C6_compact_length (n m : ℤ) :
    ((-16 ≤ n ∧ n ≤ 47) → (serialize_int n).length = 1) ∧
    ((-2048 ≤ n ∧ n ≤ 2047 ∧ ¬(-16 ≤ n ∧ n ≤ 47)) → (serialize_int n).length = 2) ∧
    ((-262144 ≤ n ∧ n ≤ 262143 ∧ ¬(-2048 ≤ n ∧ n ≤ 2047)) → (serialize_int n).length = 3) ∧
    (¬(-262144 ≤ n ∧ n ≤ 262143) → (serialize_int n).length = 5) ∧
    ((-8 ≤ m ∧ m ≤ 15) → (serialize_long m).length = 1) ∧
    ((-2048 ≤ m ∧ m ≤ 2047 ∧ ¬(-8 ≤ m ∧ m ≤ 15)) → (serialize_long m).length = 2) ∧
    ((-262144 ≤ m ∧ m ≤ 262143 ∧ ¬(-2048 ≤ m ∧ m ≤ 2047)) → (serialize_long m).length = 3) ∧
    ((-2147483648 ≤ m ∧ m ≤ 2147483647 ∧ ¬(-262144 ≤ m ∧ m ≤ 262143)) →
      (serialize_long m).length = 5) ∧
    (¬(-2147483648 ≤ m ∧ m ≤ 2147483647) → (serialize_long m).length = 9) := by
  refine ⟨?_, ?_, ?_, ?_, ?_, ?_, ?_, ?_, ?_⟩ <;>
    intro h <;>
    first
      | (unfold serialize_int; split_ifs <;>
          simp only [be4, be8, List.length_cons, List.length_nil] <;> omega)
      | (unfold serialize_long; split_ifs <;>
          simp only [be4, be8, List.length_cons, List.length_nil] <;> omega)

/-- Witness for C6 at the boundaries 3 (one byte) and 262144 (five-byte
long form). -/
theorem C6_compact_length_witness :
    ((-16 ≤ (3 : ℤ) ∧ (3 : ℤ) ≤ 47) ∧ (serialize_int 3).length = 1) ∧
    (serialize_long 262144).length = 5 :=
  ⟨⟨by decide, (C6_compact_length 3 0).1 (by decide)⟩,
   (C6_compact_length 0 262144).2.2.2.2.2.2.2.1 (by decide)⟩

/-! ### C7: decoding the compact integer forms with wrapping subtraction -/

lemma bct_int_direct (b : Nat) (h1 : 0x80 ≤ b) (h2 : b ≤ 0xbf) :
    byteCodecType b = .int (.direct b) := by
  unfold byteCodecType
  repeat rw [if_neg (by omega)]
  rw [if_pos (by omega)]

lemma bct_int_byte (b : Nat) (h1 : 0xc0 ≤ b) (h2 : b ≤ 0xcf) :
    byteCodecType b = .int (.byte b) := by
  unfold byteCodecType
  repeat rw [if_neg (by omega)]
  rw [if_pos (by omega)]

lemma bct_int_short (b : Nat) (h1 : 0xd0 ≤ b) (h2 : b ≤ 0xd7) :
    byteCodecType b = .int (.short b) := by
  unfold byteCodecType
  repeat rw [if_neg (by omega)]
  rw [if_pos (by omega)]

lemma i16_wrap_val (b b1 : Nat) (h1 : 0xc0 ≤ b) (h2 : b ≤ 0xcf) (h3 : b1 < 256) :
    i16ofBE (wrapSub b 0xc8) b1 = ((b : ℤ) - 0xc8) * 256 + b1 := by
  simp only [i16ofBE, wrapSub]
  rcases Nat.lt_or_ge b 0xc8 with hb | hb
  · have hmod : (b + 256 - 0xc8) % 256 = b + 56 := by omega
    rw [hmod]
    split_ifs with h
    · exfalso
      push_cast at h
      omega
    · push_cast
      omega
  · have hmod : (b + 256 - 0xc8) % 256 = b - 200 := by omega
    rw [hmod]
    split_ifs with h
    · push_cast [hb]
      omega
    · exfalso
      push_cast [hb] at h
      omega

lemma i24_wrap_val (b b1 b0 : Nat) (h1 : 0xd0 ≤ b) (h2 : b ≤ 0xd7)
    (h3 : b1 < 256) (h4 : b0 < 256) :
    shr (i32ofBE (wrapSub b 0xd4) b1 b0 0) 8 =
      ((b : ℤ) - 0xd4) * 65536 + b1 * 256 + b0 := by
  simp only [i32ofBE, wrapSub, shr]
  rcases Nat.lt_or_ge b 0xd4 with hb | hb
  · have hmod : (b + 256 - 0xd4) % 256 = b + 44 := by omega
    rw [hmod]
    split_ifs with h
    · exfalso
      push_cast at h
      omega
    · push_cast
      rw [show ((b : ℤ) + 44) * 16777216 + (b1 : ℤ) * 65536 + (b0 : ℤ) * 256 + 0 - 4294967296 =
            256 * (((b : ℤ) + 44) * 65536 + (b1 : ℤ) * 256 + (b0 : ℤ) - 16777216) from by ring]
      rw [Int.mul_fdiv_cancel_left _ (by norm_num)]
      try omega
  · have hmod : (b + 256 - 0xd4) % 256 = b - 212 := by omega
    rw [hmod]
    split_ifs with h
    · push_cast [hb]
      rw [show ((b : ℤ) - 212) * 16777216 + (b1 : ℤ) * 65536 + (b0 : ℤ) * 256 + 0 =
            256 * (((b : ℤ) - 212) * 65536 + (b1 : ℤ) * 256 + (b0 : ℤ)) from by ring]
      rw [Int.mul_fdiv_cancel_left _ (by norm_num)]
      try omega
    · exfalso
      push_cast [hb] at h
      omega

lemma readValueF_int_direct (n b : Nat) (h1 : 0x80 ≤ b) (h2 : b ≤ 0xbf)
    (rest : List Nat) (tr : List (List Nat)) (cr : List Definition) :
    readValueF (n + 1) ⟨b :: rest, tr, cr⟩ =
      .ok (.int ((b : ℤ) - 0x90), ⟨rest, tr, cr⟩) := by
  simp only [readValueF, readByte]
  rw [bct_int_direct b h1 h2]
  simp [read_int]

lemma readValueF_int_byte (n b b1 : Nat) (h1 : 0xc0 ≤ b) (h2 : b ≤ 0xcf)
    (h3 : b1 < 256) (rest : List Nat) (tr : List (List Nat)) (cr : List Definition) :
    readValueF (n + 1) ⟨b :: b1 :: rest, tr, cr⟩ =
      .ok (.int (((b : ℤ) - 0xc8) * 256 + b1), ⟨rest, tr, cr⟩) := by
  simp only [readValueF, readByte]
  rw [bct_int_byte b h1 h2]
  simp only [read_int, readByte]
  rw [i16_wrap_val b b1 h1 h2 h3]

lemma readValueF_int_short (n b b1 b0 : Nat) (h1 : 0xd0 ≤ b) (h2 : b ≤ 0xd7)
    (h3 : b1 < 256) (h4 : b0 < 256)
    (rest : List Nat) (tr : List (List Nat)) (cr : List Definition) :
    readValueF (n + 1) ⟨b :: b1 :: b0 :: rest, tr, cr⟩ =
      .ok (.int (((b : ℤ) - 0xd4) * 65536 + b1 * 256 + b0), ⟨rest, tr, cr⟩) := by
  simp only [readValueF, readByte]
  rw [bct_int_short b h1 h2]
  simp only [read_int, readBytesN]
  rw [if_pos (by simp)]
  simp only [List.take, List.drop, List.getD, List.get?_cons_zero,
    List.get?_cons_succ, Option.getD_some]
  rw [i24_wrap_val b b1 b0 h1 h2 h3 h4]

/-- C7: the compact integer decodings use wrapping subtraction on the lead
byte, so the decoded value equals the exact-arithmetic formula of the
matched tag range: b - 0x90 for one octet, (b - 0xc8) * 256 + b1 for two,
(b - 0xd4) * 65536 + b1 * 256 + b0 for three; in particular [0xc0, 0x00]
decodes to Int(-2048) and [0xd0, 0x00, 0x00] to Int(-262144). -/
theorem C7_wrapping_int_decode (b b1 b0 : Nat) :
    (0x80 ≤ b → b ≤ 0xbf →
      from_slice [b] = .ok (.int ((b : ℤ) - 0x90))) ∧
    (0xc0 ≤ b → b ≤ 0xcf → b1 < 256 →
      from_slice [b, b1] = .ok (.int (((b : ℤ) - 0xc8) * 256 + b1))) ∧
    (0xd0 ≤ b → b ≤ 0xd7 → b1 < 256 → b0 < 256 →
      from_slice [b, b1, b0] = .ok (.int (((b : ℤ) - 0xd4) * 65536 + b1 * 256 + b0))) ∧
    from_slice [0xc0, 0x00] = .ok (.int (-2048)) ∧
    from_slice [0xd0, 0x00, 0x00] = .ok (.int (-262144)) := by
  refine ⟨?_, ?_, ?_, by rfl, by rfl⟩
  · intro h1 h2
    unfold from_slice
    rw [show 2 * List.length [b] + 8 = 9 + 1 from by simp]
    rw [readValueF_int_direct 9 b h1 h2 [] [] []]
  · intro h1 h2 h3
    unfold from_slice
    rw [show 2 * List.length [b, b1] + 8 = 11 + 1 from by simp]
    rw [readValueF_int_byte 11 b b1 h1 h2 h3 [] [] []]
  · intro h1 h2 h3 h4
    unfold from_slice
    rw [show 2 * List.length [b, b1, b0] + 8 = 13 + 1 from by simp]
    rw [readValueF_int_short 13 b b1 b0 h1 h2 h3 h4 [] [] []]

/-- Witness for C7 at 0x95, [0xc9, 0x2a] and [0xd5, 0x01, 0x00]. -/
theorem C7_wrapping_int_decode_witness :
    (0x80 ≤ (0x95 : Nat) ∧ from_slice [0x95] = .ok (.int 5)) ∧
    from_slice [0xc9, 0x2a] = .ok (.int 298) ∧
    from_slice [0xd5, 0x01, 0x00] = .ok (.int 65792) := by
  refine ⟨⟨by decide, ?_⟩, ?_, ?_⟩
  · have h := (C7_wrapping_int_decode 0x95 0 0).1 (by decide) (by decide)
    simpa using h
  · have h := (C7_wrapping_int_decode 0xc9 0x2a 0).2.1 (by decide) (by decide) (by decide)
    simpa using h
  · have h := (C7_wrapping_int_decode 0xd5 0x01 0x00).2.2.1 (by decide) (by decide)
      (by decide) (by decide)
    simpa using h

/-! ### C10: lenient UTF-8 string decoding -/

/-- C10: read_utf8_string consumes continuation bytes only for lead bytes
in the recognized ranges (one byte below 0x80, two for 0xc2-0xdf, three for
0xe0-0xef, four for 0xf0-0xf4); a lead byte outside those ranges is
consumed and dropped while still counting as one character; no UTF-8
validation happens and no invalid-UTF-8 error exists on the decoding path,
as the concrete decode of [0x01, 0xff] (one character, an invalid lead
byte) shows: it succeeds with an empty string. -/
theorem C10_utf8_lenient (len : Nat) (b : Nat) (rest : List Nat)
    (tr : List (List Nat)) (cr : List Definition) :
    (b ≤ 0x7f →
      read_utf8_string (len + 1) ⟨b :: rest, tr, cr⟩ =
        Except.map (fun p => (b :: p.1, p.2)) (read_utf8_string len ⟨rest, tr, cr⟩)) ∧
    (∀ c1 rest2, rest = c1 :: rest2 → 0xc2 ≤ b → b ≤ 0xdf →
      read_utf8_string (len + 1) ⟨b :: rest, tr, cr⟩ =
        Except.map (fun p => (b :: c1 :: p.1, p.2))
          (read_utf8_string len ⟨rest2, tr, cr⟩)) ∧
    (∀ c1 c2 rest2, rest = c1 :: c2 :: rest2 → 0xe0 ≤ b → b ≤ 0xef →
      read_utf8_string (len + 1) ⟨b :: rest, tr, cr⟩ =
        Except.map (fun p => (b :: c1 :: c2 :: p.1, p.2))
          (read_utf8_string len ⟨rest2, tr, cr⟩)) ∧
    (∀ c1 c2 c3 rest2, rest = c1 :: c2 :: c3 :: rest2 → 0xf0 ≤ b → b ≤ 0xf4 →
      read_utf8_string (len + 1) ⟨b :: rest, tr, cr⟩ =
        Except.map (fun p => (b :: c1 :: c2 :: c3 :: p.1, p.2))
          (read_utf8_string len ⟨rest2, tr, cr⟩)) ∧
    ((0x80 ≤ b ∧ b ≤ 0xc1) ∨ (0xf5 ≤ b ∧ b ≤ 0xff) →
      read_utf8_string (len + 1) ⟨b :: rest, tr, cr⟩ =
        read_utf8_string len ⟨rest, tr, cr⟩) ∧
    from_slice [0x01, 0xff] = .ok (.str []) := by
  refine ⟨?_, ?_, ?_, ?_, ?_, by rfl⟩
  · intro hb
    simp only [read_utf8_string, readByte]
    rw [if_pos hb]
    cases read_utf8_string len ⟨rest, tr, cr⟩ with
    | error e => rfl
    | ok p => rfl
  · intro c1 rest2 hr hb1 hb2
    subst hr
    simp only [read_utf8_string, readByte]
    rw [if_neg (by omega), if_pos (by omega)]
    cases read_utf8_string len ⟨rest2, tr, cr⟩ with
    | error e => rfl
    | ok p => rfl
  · intro c1 c2 rest2 hr hb1 hb2
    subst hr
    simp only [read_utf8_string, readByte, readBytesN]
    rw [if_neg (by omega), if_neg (by omega), if_pos (by omega)]
    rw [if_pos (by simp)]
    simp only [List.take, List.drop]
    cases read_utf8_string len ⟨rest2, tr, cr⟩ with
    | error e => rfl
    | ok p => rfl
  · intro c1 c2 c3 rest2 hr hb1 hb2
    subst hr
    simp only [read_utf8_string, readByte, readBytesN]
    rw [if_neg (by omega), if_neg (by omega), if_neg (by omega), if_pos (by omega)]
    rw [if_pos (by simp)]
    simp only [List.take, List.drop]
    cases read_utf8_string len ⟨rest2, tr, cr⟩ with
    | error e => rfl
    | ok p => rfl
  · intro hb
    simp only [read_utf8_string, readByte]
    rw [if_neg (by omega), if_neg (by omega), if_neg (by omega), if_neg (by omega)]

/-- Witness for C10: an ASCII byte keeps its byte, and the invalid lead
byte 0x90 is consumed, dropped, and counted. -/
theorem C10_utf8_lenient_witness :
    ((65 : Nat) ≤ 0x7f ∧
      read_utf8_string 1 ⟨[65], [], []⟩ =
        Except.map (fun p => (65 :: p.1, p.2)) (read_utf8_string 0 ⟨[], [], []⟩)) ∧
    ((0x80 ≤ (0x90 : Nat) ∧ (0x90 : Nat) ≤ 0xc1) ∧
      read_utf8_string 1 ⟨[0x90, 7], [], []⟩ = read_utf8_string 0 ⟨[7], [], []⟩) := by
  refine ⟨⟨by decide, (C10_utf8_lenient 0 65 [] [] []).1 (by decide)⟩,
          ⟨⟨by decide, by decide⟩,
            (C10_utf8_lenient 0 0x90 [7] [] []).2.2.2.2.1 (Or.inl ⟨by decide, by decide⟩)⟩⟩

/-! ### C5: string chunking panics at 0x8000 characters

The chunk loop advances offset with offset += i instead of offset = i, so
after the first chunk the final slice bytes[offset .. i - last] has its
start beyond its end; the slice panics.  The smallest failing input is any
string of exactly 0x8000 characters. -/

lemma string_loop_ascii (N : Nat) :
    ∀ (k fuel i len offset last : Nat) (out : List Nat),
      i + k ≤ N → len + k < 0x8000 →
      string_chunk_loop (fuel + k) (List.replicate N 97) i len offset last out =
        string_chunk_loop fuel (List.replicate N 97) (i + k) (len + k) offset last out := by
  intro k
  induction k with
  | zero => intro fuel i len offset last out _ _; rfl
  | succ k ih =>
      intro fuel i len offset last out hik hlen
      have hfe : fuel + (k + 1) = (fuel + k) + 1 := by omega
      rw [hfe]
      have hi : i < (List.replicate N 97).length := by
        simp [List.length_replicate]; omega
      simp only [string_chunk_loop]
      rw [dif_pos hi]
      have hget : (List.replicate N 97).get ⟨i, hi⟩ = 97 := by
        simp [List.get_eq_getElem]
      rw [hget]
      norm_num
      rw [if_neg (by omega)]
      have h1 : i + 1 + k = i + (k + 1) := by omega
      have h2 : len + 1 + k = len + (k + 1) := by omega
      rw [← h1, ← h2]
      exact ih fuel (i + 1) (len + 1) offset last out (by omega) (by omega)

lemma scl_exit (fuel : Nat) (bytes : List Nat) (i len offset last : Nat)
    (out : List Nat) (hi : ¬ i < bytes.length) (hlen : len ≤ 31) :
    string_chunk_loop (fuel + 1) bytes i len offset last out =
      match sliceRange bytes offset (i - last) with
      | none => none
      | some payload => some (out ++ [len] ++ payload) := by
  simp only [string_chunk_loop]
  rw [dif_neg hi, if_pos hlen]

lemma scl_trigger (fuel : Nat) (bytes : List Nat) (i len offset last : Nat)
    (out : List Nat) (hi : i < bytes.length)
    (hb : bytes.get ⟨i, hi⟩ &&& 0x80 = 0) (htrig : 0x8000 ≤ len + 1) :
    string_chunk_loop (fuel + 1) bytes i len offset last out =
      match sliceRange bytes offset (i + 1 - last) with
      | none => none
      | some payload =>
          string_chunk_loop fuel bytes (i + 1) 0 (offset + (i + 1)) (i + 1)
            (out ++ 0x52 :: be2 ((len + 1) % 65536) ++ payload) := by
  simp only [string_chunk_loop]
  rw [dif_pos hi, hb]
  rw [if_neg (show ¬ (0 : Nat) < 0 from by decide)]
  rw [if_pos htrig]

/-- C5: the claim fails on the code for strings of 0x8000 or more
characters: serializing a string of exactly 0x8000 ASCII characters panics
(after emitting the first chunk, the exit path slices
bytes[0x8000 .. 0], an invalid range), so no prefix/payload decomposition
exists at all.  For shorter strings the claim holds, but as stated - for
every string - it is refuted by this input. -/
theorem C5_string_chunk_panic_eval :
    serialize_string (List.replicate 32768 97) = none := by
  unfold serialize_string
  rw [List.length_replicate]
  rw [show (32768 : Nat) + 1 = 2 + 32767 from by norm_num]
  rw [string_loop_ascii 32768 32767 2 0 0 0 0 [] (by omega) (by norm_num)]
  simp only [Nat.zero_add]
  have hi : (32767 : Nat) < (List.replicate 32768 97).length := by
    rw [List.length_replicate]; omega
  rw [show (2 : Nat) = 1 + 1 from rfl]
  rw [scl_trigger 1 (List.replicate 32768 97) 32767 32767 0 0 [] hi
    (by rw [List.get_eq_getElem, List.getElem_replicate]; decide) (by norm_num)]
  rw [show sliceRange (List.replicate 32768 97) 0 (32767 + 1 - 0) =
        some (List.replicate 32768 97) from by
    rw [sliceRange, if_pos (by rw [List.length_replicate]; omega)]
    rw [List.drop_zero, Nat.sub_zero]
    rw [List.take_replicate]
    norm_num]
  dsimp only
  rw [show (1 : Nat) = 0 + 1 from rfl]
  rw [scl_exit 0 (List.replicate 32768 97) (32767 + 1) 0 (0 + (32767 + 1))
    (32767 + 1) _ (by rw [List.length_replicate]; omega) (by omega)]
  rw [show sliceRange (List.replicate 32768 97) (0 + (32767 + 1))
        (32767 + 1 - (32767 + 1)) = none from by
    rw [sliceRange, if_neg (by omega)]]

end Hessian
